import Mathlib

/-
Verification development for the berghain-bot admission decision engine.

The TypeScript sources are shallowly embedded:
  * JS number values become real numbers (counts the code keeps integral become naturals);
  * JS objects and Maps keyed by attribute become association lists
    (key order is the object iteration order, which the code relies on for
    tie-breaking);
  * Math.sqrt becomes Real.sqrt;
  * a thrown exception becomes an Option-valued result (none = throw).
Field note: the TS field name "attribute" is a reserved keyword in Lean, so it
is rendered as "attr" throughout.
-/

noncomputable section

/-- Association-list lookup (JS keyed object read). -/
def lookupA {α : Type} : List (String × α) → String → Option α
  | [], _ => none
  | p :: rest, k => if k = p.1 then some p.2 else lookupA rest k

/-- Lookup with a default (the JS idiom obj[k] ?? d). -/
def lookupD {α : Type} (m : List (String × α)) (k : String) (d : α) : α :=
  (lookupA m k).getD d

/-- Update every binding of key k by f (a JS keyed read-modify-write;
a no-op when the key is absent, exactly like the guarded obj[k] = f(obj[k])). -/
def mapAtKey {α : Type} (l : List (String × α)) (k : String) (f : α → α) :
    List (String × α) :=
  l.map (fun p => if p.1 = k then (p.1, f p.2) else p)

theorem lookupA_mapAtKey {α : Type} (l : List (String × α)) (k : String)
    (f : α → α) (a : String) :
    lookupA (mapAtKey l k f) a =
      if a = k then (lookupA l a).map f else lookupA l a := by
  induction l with
  | nil => by_cases h : a = k <;> simp [mapAtKey, lookupA, h]
  | cons p rest ih =>
    by_cases hk : p.1 = k
    · by_cases ha : a = p.1
      · subst ha
        simp [mapAtKey, lookupA, hk]
      · have hak : ¬ a = k := fun h => ha (h.trans hk.symm)
        simp only [mapAtKey, List.map_cons, if_pos hk] at ih ⊢
        simp [lookupA, ha, hak] at ih ⊢
        simpa [hak] using ih
    · by_cases ha : a = p.1
      · subst ha
        simp [mapAtKey, lookupA, hk]
      · simp only [mapAtKey, List.map_cons, if_neg hk] at ih ⊢
        simp [lookupA, ha] at ih ⊢
        exact ih

theorem lookupA_mem {α : Type} {l : List (String × α)} {a : String} {b : α}
    (h : lookupA l a = some b) : (a, b) ∈ l := by
  induction l with
  | nil => simp [lookupA] at h
  | cons p rest ih =>
    obtain ⟨k', v⟩ := p
    by_cases ha : a = k'
    · subst ha
      simp [lookupA] at h
      subst h
      exact List.mem_cons_self _ _
    · simp [lookupA, ha] at h
      exact List.mem_cons_of_mem _ (ih h)

/-! ## Data model (src/core/types.ts) -/

/-- Constraint with fields attribute ("attr" here) and minCount. -/
structure Constraint where
  attr : String
  minCount : ℕ

/-- AttributeStatistics.  The correlations field is never consulted by the
decision core (attributes are treated as independent), so it is omitted. -/
structure AttributeStatistics where
  relativeFrequencies : List (String × ℝ)

/-- Person with fields personIndex and attributes. -/
structure Person where
  personIndex : ℕ
  attributes : List (String × Bool)

/-- CurrentState. -/
structure CurrentState where
  admittedCount : ℕ
  rejectedCount : ℕ
  admittedAttributes : List (String × ℕ)
  constraints : List Constraint
  statistics : AttributeStatistics

/-! ## src/core/Feasibility.ts -/

def VENUE_CAPACITY : ℕ := 1000

def SAFETY_Z : ℝ := 1.15

def FILLER_MIN_SLACK : ℝ := 0.8

/-- remainingSeats(state, acceptSeat). -/
def remainingSeats (state : CurrentState) (acceptSeat : Bool) : ℝ :=
  let currentRemaining : ℝ := (VENUE_CAPACITY : ℝ) - (state.admittedCount : ℝ)
  if acceptSeat then currentRemaining - 1 else currentRemaining

/-- computeDeficits(state): max(0, minCount - have) per constraint
(truncated natural subtraction is exactly the max(0, _) floor). -/
def computeDeficits (state : CurrentState) : List (String × ℕ) :=
  state.constraints.map
    (fun c => (c.attr, c.minCount - lookupD state.admittedAttributes c.attr 0))

/-- allMinimaMet(deficits). -/
def allMinimaMet (deficits : List (String × ℕ)) : Bool :=
  deficits.all (fun v => v.2 = 0)

/-- clamp01(x).  (The JS NaN-to-0 branch has no counterpart in the reals;
every out-of-range real is clamped exactly as in the source.) -/
def clamp01 (x : ℝ) : ℝ :=
  if x < 0 then 0 else if x > 1 then 1 else x

structure FeasibilityPerAttr where
  need : ℕ
  expected : ℝ
  sd : ℝ
  slack : ℝ

structure FeasibilityResult where
  feasible : Prop
  seatsRemaining : ℝ
  perAttr : List (String × FeasibilityPerAttr)
  minSlackAttr : Option String
  minSlack : ℝ

/-- The hypothetical-decision loop of evaluateDecisionFeasibility: for each
attribute the person has, the deficit entry (when present) is reduced by one,
floored at zero. -/
def applyPersonToDeficits (deficits : List (String × ℕ))
    (attrs : List (String × Bool)) : List (String × ℕ) :=
  attrs.foldl
    (fun ds ab => if ab.2 then mapAtKey ds ab.1 (fun d => d - 1) else ds)
    deficits

/-- One iteration body of the per-constraint loop in
evaluateDecisionFeasibility. -/
def feasPerAttrOf (stats : AttributeStatistics) (seats : ℝ)
    (an : String × ℕ) : FeasibilityPerAttr :=
  let p := clamp01 (lookupD stats.relativeFrequencies an.1 0)
  let expected := p * max 0 seats
  let sd := Real.sqrt (p * (1 - p) * max 0 seats)
  { need := an.2, expected := expected, sd := sd
    slack := expected - SAFETY_Z * sd - (an.2 : ℝ) }

/-- One iteration of the running-minimum accumulator of
evaluateDecisionFeasibility (minSlack starts at +Infinity, modelled by none;
the update fires for entries with need > 0 whose slack strictly improves the
minimum). -/
def minSlackStep (stats : AttributeStatistics) (seats : ℝ)
    (acc : Option (String × ℝ)) (an : String × ℕ) : Option (String × ℝ) :=
  match acc with
  | none =>
    if 0 < an.2 then some (an.1, (feasPerAttrOf stats seats an).slack)
    else none
  | some b =>
    if 0 < an.2 ∧ (feasPerAttrOf stats seats an).slack < b.2
    then some (an.1, (feasPerAttrOf stats seats an).slack) else some b

/-- The bottleneck accumulator loop of evaluateDecisionFeasibility. -/
def minSlackFold (stats : AttributeStatistics) (seats : ℝ)
    (deficits : List (String × ℕ)) : Option (String × ℝ) :=
  deficits.foldl (minSlackStep stats seats) none

/-- evaluateDecisionFeasibility(state, stats, person, acceptSeat). -/
def evaluateDecisionFeasibility (state : CurrentState)
    (stats : AttributeStatistics) (person : Option Person)
    (acceptSeat : Bool) : FeasibilityResult :=
  let seats := remainingSeats state acceptSeat
  let deficits0 := computeDeficits state
  let deficits :=
    match person, acceptSeat with
    | some p, true => applyPersonToDeficits deficits0 p.attributes
    | _, _ => deficits0
  let perAttr := deficits.map (fun an => (an.1, feasPerAttrOf stats seats an))
  let best := minSlackFold stats seats deficits
  { feasible := ∀ pr ∈ perAttr, 0 ≤ (pr.2).slack
    seatsRemaining := max 0 seats
    perAttr := perAttr
    minSlackAttr := best.map (fun b => b.1)
    minSlack := (best.map (fun b => b.2)).getD 0 }

/-! ## src/strategy/SlackCalculator.ts -/

/-- The statistical slack formula of calculateConstraintSlack:
expected - safetyBuffer - remainingNeed, with the variance floored at zero
inside the square root exactly as in the source. -/
def statSlack (p s need : ℝ) : ℝ :=
  p * s - SAFETY_Z * Real.sqrt (max 0 (p * (1 - p) * s)) - need

structure SlackResult where
  attr : String
  slack : ℝ
  expected : ℝ
  safetyBuffer : ℝ
  remainingNeed : ℕ
  probability : ℝ

/-- calculateConstraintSlack(attribute, state, remainingSeats); the thrown
"Constraint not found" error is modelled by none. -/
def calculateConstraintSlack (a : String) (state : CurrentState)
    (remSeats : ℝ) : Option SlackResult :=
  let probability := lookupD state.statistics.relativeFrequencies a 0
  match state.constraints.find? (fun c => c.attr == a) with
  | none => none
  | some constraint =>
    let currentCount := lookupD state.admittedAttributes a 0
    let remainingNeed := constraint.minCount - currentCount
    let expected := probability * remSeats
    let safetyBuffer :=
      SAFETY_Z * Real.sqrt (max 0 (probability * (1 - probability) * remSeats))
    some { attr := a
           slack := statSlack probability remSeats (remainingNeed : ℝ)
           expected := expected
           safetyBuffer := safetyBuffer
           remainingNeed := remainingNeed
           probability := probability }

/-- One iteration of the constraint loop in calculateAllSlacks. -/
def allSlacksStep (state : CurrentState) (remSeats : ℝ)
    (acc : Option (List (String × ℝ) × List SlackResult)) (c : Constraint) :
    Option (List (String × ℝ) × List SlackResult) :=
  match acc with
  | none => none
  | some (slacks, details) =>
    match calculateConstraintSlack c.attr state remSeats with
    | none => none
    | some r => some (slacks ++ [(c.attr, r.slack)], details ++ [r])

/-- calculateAllSlacks(state); a thrown error from any constraint propagates
as none. -/
def calculateAllSlacks (state : CurrentState) :
    Option (List (String × ℝ) × List SlackResult) :=
  let remSeats : ℝ := (VENUE_CAPACITY : ℝ) - (state.admittedCount : ℝ)
  state.constraints.foldl (allSlacksStep state remSeats) (some ([], []))

/-! ## DualTracker (two revisions in the repository)

DualTrackerV1 is the revision at src/strategy/DualTracker.ts inside
src/unnamed/part_003 (zero seeding, raw update lambda + eta * slack,
maxDual = 10).  ShadowPricingUtils.DualTracker is the revision embedded in
src/strategy/DeficitGreedy.ts (rarity seeding, raw update
lambda - eta * slack / VENUE_CAPACITY, maxDual = 20). -/

structure DualTracker where
  learningRate : ℝ
  duals : List (String × ℝ)

/-- getDualValue(attribute) (same in both revisions). -/
def getDualValue (t : DualTracker) (a : String) : ℝ :=
  lookupD t.duals a 0

namespace DualTrackerV1

def minDual : ℝ := 0.0

def maxDual : ℝ := 10.0

/-- initDuals(constraints): lambda = 0 for every constraint. -/
def initDuals (constraints : List Constraint) : List (String × ℝ) :=
  constraints.map (fun c => (c.attr, 0.0))

/-- updateDuals(slacks): raw = lambda + eta * slack, projected to
[minDual, maxDual]; attributes without a tracked dual are skipped. -/
def updateDuals (t : DualTracker) (slacks : List (String × ℝ)) : DualTracker :=
  let newDuals :=
    slacks.foldl
      (fun ds sp =>
        if (lookupA ds sp.1).isSome then
          mapAtKey ds sp.1
            (fun d => max minDual (min maxDual (d + t.learningRate * sp.2)))
        else ds)
      t.duals
  { t with duals := newDuals }

end DualTrackerV1

namespace ShadowPricingUtils

def minDual : ℝ := 0.0

def maxDual : ℝ := 20.0

/-- The per-constraint seed of initDuals(constraints, statistics):
inverseFreq = 1 / max(freq ?? 0.1, 0.01). -/
def inverseFreqOf (statistics : AttributeStatistics) (c : Constraint) : ℝ :=
  1 / max (lookupD statistics.relativeFrequencies c.attr 0.1) 0.01

/-- Math.min over the inverse frequencies (empty input never reaches the
seeding loop, so its value is irrelevant; 0 stands in for the JS Infinity). -/
def minInverseOf (l : List ℝ) : ℝ :=
  match l with
  | [] => 0
  | x :: xs => xs.foldl min x

def maxInverseOf (l : List ℝ) : ℝ :=
  match l with
  | [] => 0
  | x :: xs => xs.foldl max x

/-- initDuals(constraints, statistics): rarity-normalized seeding onto
[0.5, 5.0], falling back to 2.5 when the range collapses. -/
def initDuals (constraints : List Constraint)
    (statistics : AttributeStatistics) : List (String × ℝ) :=
  let inverseFreqs := constraints.map (inverseFreqOf statistics)
  let minInverse := minInverseOf inverseFreqs
  let maxInverse := maxInverseOf inverseFreqs
  let range := maxInverse - minInverse
  constraints.map (fun c =>
    let inverseFreq := inverseFreqOf statistics c
    (c.attr,
      if 0 < range then 0.5 + 4.5 * ((inverseFreq - minInverse) / range)
      else 2.5))

/-- updateDuals(slacks): raw = lambda - eta * (slack / VENUE_CAPACITY),
projected to [minDual, maxDual]; untracked attributes are skipped. -/
def updateDuals (t : DualTracker) (slacks : List (String × ℝ)) : DualTracker :=
  let newDuals :=
    slacks.foldl
      (fun ds sp =>
        if (lookupA ds sp.1).isSome then
          mapAtKey ds sp.1
            (fun d =>
              max minDual
                (min maxDual (d - t.learningRate * (sp.2 / (VENUE_CAPACITY : ℝ)))))
        else ds)
      t.duals
  { t with duals := newDuals }

end ShadowPricingUtils

/-! ## PersonScorer (two revisions)

PersonScorer.scorePerson is the version at the top of
src/strategy/PersonScorer.ts (no deficit check).
ShadowPricingUtils.scorePerson is the revision embedded in
src/strategy/DeficitGreedy.ts (skips attributes whose minimum is met). -/

structure ScoreResult where
  totalValue : ℝ
  shadowPriceSum : ℝ
  seatCost : ℝ
  helpedAttributes : List String

/-- computeSeatCostRisk(state) with the default costMultiplier = 3.0 and
scarcityExponent = 3.0 used by every caller. -/
def computeSeatCostRisk (state : CurrentState) : ℝ :=
  let remaining : ℝ := (VENUE_CAPACITY : ℝ) - (state.admittedCount : ℝ)
  let seatUtilization : ℝ := 1 - remaining / (VENUE_CAPACITY : ℝ)
  3 * seatUtilization ^ (3 : ℕ)

namespace PersonScorer

/-- One iteration of the attribute loop of PersonScorer.scorePerson. -/
def scoreStep (t : DualTracker) (acc : ℝ × List String) (ab : String × Bool) :
    ℝ × List String :=
  if ab.2 then
    let lambda := getDualValue t ab.1
    if 0 < lambda then (acc.1 + lambda, acc.2 ++ [ab.1]) else acc
  else acc

/-- scorePerson(person, dualTracker, state), src/strategy/PersonScorer.ts
lines 50-90: every possessed attribute with a positive price contributes,
whether or not its constraint is still unmet. -/
def scorePerson (person : Person) (t : DualTracker) (state : CurrentState) :
    ScoreResult :=
  let acc := person.attributes.foldl (scoreStep t) (0, [])
  let seatCost := computeSeatCostRisk state
  { totalValue := acc.1 - seatCost, shadowPriceSum := acc.1
    seatCost := seatCost, helpedAttributes := acc.2 }

end PersonScorer

namespace ShadowPricingUtils

/-- One iteration of the attribute loop of the ShadowPricingUtils
scorePerson revision. -/
def scoreStep (state : CurrentState) (t : DualTracker)
    (acc : ℝ × List String) (ab : String × Bool) : ℝ × List String :=
  if ab.2 then
    let acc2 := (acc.1, acc.2 ++ [ab.1])
    match state.constraints.find? (fun c => c.attr == ab.1) with
    | none => acc2
    | some constraint =>
      let currentCount := lookupD state.admittedAttributes ab.1 0
      if (constraint.minCount : ℤ) - (currentCount : ℤ) ≤ 0 then acc2
      else
        let lambda := getDualValue t ab.1
        if 0 < lambda then (acc2.1 + lambda, acc2.2) else acc2
  else acc

/-- scorePerson (ShadowPricingUtils revision, embedded in
src/strategy/DeficitGreedy.ts lines 223-278): a possessed attribute is
recorded as helped, but contributes its price only when its constraint
exists, its minimum is not yet met, and the price is positive. -/
def scorePerson (person : Person) (t : DualTracker) (state : CurrentState) :
    ScoreResult :=
  let acc := person.attributes.foldl (scoreStep state t) (0, [])
  let seatCost := computeSeatCostRisk state
  { totalValue := acc.1 - seatCost, shadowPriceSum := acc.1
    seatCost := seatCost, helpedAttributes := acc.2 }

end ShadowPricingUtils


/-! ## src/strategy/DeficitGreedy.ts (lines 11-46) -/

namespace DeficitGreedy

/-- shouldAdmitPerson(state, next): accept when all minima are met, or when
the person has any attribute with unmet minimum; the per-constraint
remainingNeed map it builds is exactly computeDeficits. -/
def shouldAdmitPerson (state : CurrentState) (next : Person) : Bool :=
  let remainingNeed := computeDeficits state
  let totalNeedLeft : ℕ := (remainingNeed.map (fun an => an.2)).sum
  if totalNeedLeft = 0 then true
  else
    next.attributes.any
      (fun ab => ab.2 && decide (0 < lookupD remainingNeed ab.1 0))

end DeficitGreedy

/-! ## PureShadowPricing, the revision embedded in
src/strategy/PersonScorer.ts (lines 92-236): DualTrackerV1 tooling,
PersonScorer.scorePerson, thresholds below. -/

namespace PureShadowPricing

def DUAL_UPDATE_FREQUENCY : ℕ := 10

def LEARNING_RATE : ℝ := 0.15

def HELPER_THRESHOLD : ℝ := 0.0

def FILLER_THRESHOLD : ℝ := -0.5

def SAFE_FILLER_THRESHOLD : ℝ := 0.8

/-- The mutable fields of a PureShadowPricing instance
(isInitialized is rendered isSeeded). -/
structure InstanceState where
  tracker : DualTracker
  isSeeded : Bool
  lastDualUpdate : ℕ

/-- A freshly constructed PureShadowPricing instance. -/
def freshInstance : InstanceState :=
  { tracker := { learningRate := LEARNING_RATE, duals := [] }
    isSeeded := false
    lastDualUpdate := 0 }

/-- helpsUnmetConstraints(person, deficits). -/
def helpsUnmetConstraints (person : Person)
    (deficits : List (String × ℕ)) : Bool :=
  deficits.any
    (fun an => decide (0 < an.2) && lookupD person.attributes an.1 false)

/-- The first-call initialization of shouldAdmitPerson: seed the duals once
(isInitialized flag). -/
def seedStep (inst : InstanceState) (state : CurrentState) : InstanceState :=
  if inst.isSeeded then inst
  else { inst with
           tracker := { inst.tracker with
                          duals := DualTrackerV1.initDuals state.constraints }
           isSeeded := true }

/-- The periodic dual refresh of shouldAdmitPerson: when at least
DUAL_UPDATE_FREQUENCY arrivals have passed since the last update, feed
calculateAllSlacks into DualTrackerV1.updateDuals (none models a thrown
error from calculateAllSlacks). -/
def refreshStep (inst1 : InstanceState) (state : CurrentState) :
    Option InstanceState :=
  if (DUAL_UPDATE_FREQUENCY : ℤ)
      ≤ ((state.admittedCount + state.rejectedCount : ℕ) : ℤ)
        - (inst1.lastDualUpdate : ℤ) then
    match calculateAllSlacks state with
    | none => none
    | some (slacks, _) =>
      some { inst1 with
               tracker := DualTrackerV1.updateDuals inst1.tracker slacks
               lastDualUpdate := state.admittedCount + state.rejectedCount }
  else some inst1

/-- The threshold comparison of shouldAdmitPerson: the conservative
safe-filler test when all minima are met, otherwise the helper/filler
threshold. -/
def decideWith (inst2 : InstanceState) (state : CurrentState)
    (next : Person) : Bool × InstanceState :=
  if allMinimaMet (computeDeficits state) then
    (decide (SAFE_FILLER_THRESHOLD
      ≤ (PersonScorer.scorePerson next inst2.tracker state).totalValue), inst2)
  else
    (decide ((if helpsUnmetConstraints next (computeDeficits state)
          then HELPER_THRESHOLD else FILLER_THRESHOLD)
      ≤ (PersonScorer.scorePerson next inst2.tracker state).totalValue), inst2)

/-- shouldAdmitPerson(state, next) of the embedded PureShadowPricing
revision (src/strategy/PersonScorer.ts lines 126-186), as a function of the
instance's mutable fields, returning the decision together with the mutated
instance. -/
def shouldAdmitPerson (inst : InstanceState) (state : CurrentState)
    (next : Person) : Option (Bool × InstanceState) :=
  match refreshStep (seedStep inst state) state with
  | none => none
  | some inst2 => some (decideWith inst2 state next)

end PureShadowPricing

/-! ## src/core/ScaledLP.ts and src/solver/LinearProgramSolver.ts
(src/unnamed/part_006) -/

/-- LPConstraint (fields used by the solver; deficitWeight is carried but
never read by the analytical solver). -/
structure LPConstraint where
  attr : String
  currentAdmitted : ℕ
  scaledCapacity : ℝ
  tolerance : ℝ
  personContribution : ℝ
  deficitWeight : ℝ

/-- ScaledLPProblem restricted to the fields the solver consults
(variables, progress bookkeeping and timing are logging-only). -/
structure ScaledLPProblem where
  constraints : List LPConstraint

inductive SolutionType where
  | optimal
  | infeasible
  | unbounded
deriving DecidableEq

/-- LPSolution.  optimalValue none models the JS -Infinity sentinel of the
infeasible branch; solveTimeMs and iterations are metadata (iterations kept,
wall-clock time dropped). -/
structure LPSolution where
  feasible : Bool
  optimalValue : Option ℝ
  admissionProbability : ℝ
  activeConstraints : List String
  constraintSlacks : List (String × ℝ)
  solutionType : SolutionType
  iterations : ℕ

/-- One iteration of the constraint loop of getMaxFeasibleProbability. -/
def gmfpStep (mp : ℝ) (c : LPConstraint) : ℝ :=
  if 0 < c.personContribution then
    let availableCapacity := c.scaledCapacity - (c.currentAdmitted : ℝ)
    let maxForThisConstraint := max 0 (availableCapacity / c.personContribution)
    if maxForThisConstraint < mp then maxForThisConstraint else mp
  else mp

/-- getMaxFeasibleProbability(lpProblem) from src/core/ScaledLP.ts. -/
def getMaxFeasibleProbability (problem : ScaledLPProblem) : ℝ :=
  max 0 (min 1 (problem.constraints.foldl gmfpStep 1))

namespace AnalyticalLPSolver

def TOLERANCE : ℝ := 1e-6

/-- checkBasicFeasibility(problem): every constraint admits x = 0. -/
def checkBasicFeasibility (problem : ScaledLPProblem) : Bool :=
  problem.constraints.all
    (fun c => !(decide (c.scaledCapacity < (c.currentAdmitted : ℝ))))

/-- analyzeConstraints(problem, optimalX). -/
def analyzeConstraints (problem : ScaledLPProblem) (optimalX : ℝ) :
    List String × List (String × ℝ) :=
  problem.constraints.foldl
    (fun acc c =>
      let consumption := (c.currentAdmitted : ℝ) + optimalX * c.personContribution
      let slack := c.scaledCapacity - consumption
      let slacks := acc.2 ++ [(c.attr, slack)]
      if |slack| < TOLERANCE then (acc.1 ++ [c.attr], slacks) else (acc.1, slacks))
    ([], [])

/-- createInfeasibleSolution(problem). -/
def createInfeasibleSolution (problem : ScaledLPProblem) : LPSolution :=
  { feasible := false
    optimalValue := none
    admissionProbability := 0
    activeConstraints := []
    constraintSlacks :=
      problem.constraints.map
        (fun c => (c.attr, c.scaledCapacity - (c.currentAdmitted : ℝ)))
    solutionType := SolutionType.infeasible
    iterations := 1 }

/-- AnalyticalLPSolver.solve(problem). -/
def solve (problem : ScaledLPProblem) : LPSolution :=
  if checkBasicFeasibility problem then
    let maxProbability := getMaxFeasibleProbability problem
    let analyzed := analyzeConstraints problem maxProbability
    { feasible := true
      optimalValue := some maxProbability
      admissionProbability := maxProbability
      activeConstraints := analyzed.1
      constraintSlacks := analyzed.2
      solutionType := SolutionType.optimal
      iterations := 1 }
  else createInfeasibleSolution problem

end AnalyticalLPSolver


/-! ## Basic facts used across claims -/

theorem clamp01_nonneg (x : ℝ) : 0 ≤ clamp01 x := by
  unfold clamp01
  split_ifs with h1 h2
  · linarith
  · linarith
  · push_neg at h1
    linarith

theorem clamp01_le_one (x : ℝ) : clamp01 x ≤ 1 := by
  unfold clamp01
  split_ifs with h1 h2
  · linarith
  · linarith
  · push_neg at h2
    linarith

/-- C1: the DualTracker revision at src/unnamed/part_003 moves the price in
the SAME direction as the slack: evaluated at price 5, learning rate 0.3 and
slack -10 (under-supplied), the updated price is 2, strictly BELOW the old
price, contradicting the claim (and the tracker's own doc comment) that a
negative slack never decreases the price. -/
theorem c1_dual_update_negative_slack_decreases_price :
    getDualValue
        (DualTrackerV1.updateDuals
          { learningRate := 0.3, duals := [("a", 5)] } [("a", -10)]) "a" = 2
      ∧ (2 : ℝ) < 5 := by
  constructor
  · simp [DualTrackerV1.updateDuals, DualTrackerV1.minDual,
      DualTrackerV1.maxDual, getDualValue, lookupD, lookupA, mapAtKey]
    norm_num [min_def, max_def]
  · norm_num


/-- C10: evaluateDecisionFeasibility is total on every input: the returned
seatsRemaining is non-negative, clamp01 sends every real frequency
(including negatives and values above 1) into [0,1], and every per-attribute
expected value and standard deviation is built from the seat count floored
at 0 and the clamped probability, so each sd is the square root of a
non-negative number and all fields are well-defined reals (the JS NaN cases
have no counterpart in this real-valued model; the code maps NaN to 0 via
clamp01). -/
theorem c10_feasibility_total_and_clamped
    (state : CurrentState) (stats : AttributeStatistics)
    (person : Option Person) (acceptSeat : Bool) :
    0 ≤ (evaluateDecisionFeasibility state stats person acceptSeat).seatsRemaining
    ∧ (∀ x : ℝ, 0 ≤ clamp01 x ∧ clamp01 x ≤ 1)
    ∧ ∀ pr ∈ (evaluateDecisionFeasibility state stats person acceptSeat).perAttr,
        pr.2.expected
            = clamp01 (lookupD stats.relativeFrequencies pr.1 0)
                * max 0 (remainingSeats state acceptSeat)
          ∧ 0 ≤ pr.2.expected
          ∧ (∃ v, 0 ≤ v ∧ pr.2.sd = Real.sqrt v)
          ∧ 0 ≤ pr.2.sd := by
  refine ⟨le_max_left 0 _, fun x => ⟨clamp01_nonneg x, clamp01_le_one x⟩, ?_⟩
  intro pr hpr
  simp only [evaluateDecisionFeasibility, List.mem_map] at hpr
  obtain ⟨an, _, rfl⟩ := hpr
  have h0 : 0 ≤ clamp01 (lookupD stats.relativeFrequencies an.1 0) :=
    clamp01_nonneg _
  have h1 : clamp01 (lookupD stats.relativeFrequencies an.1 0) ≤ 1 :=
    clamp01_le_one _
  refine ⟨rfl, ?_, ⟨_, ?_, rfl⟩, Real.sqrt_nonneg _⟩
  · exact mul_nonneg h0 (le_max_left 0 _)
  · exact mul_nonneg (mul_nonneg h0 (by linarith)) (le_max_left 0 _)

/-- A tiny concrete state used by several witnesses: one constraint on
attribute "a" with minimum 1, frequency 1, nothing admitted yet. -/
def sampleState : CurrentState :=
  { admittedCount := 0
    rejectedCount := 0
    admittedAttributes := []
    constraints := [{ attr := "a", minCount := 1 }]
    statistics := { relativeFrequencies := [("a", 1)] } }

/-- Witness for C10 at a concrete state, instantiating the per-attribute
clause at the single perAttr entry. -/
theorem c10_feasibility_total_and_clamped_witness :
    ("a", feasPerAttrOf sampleState.statistics (remainingSeats sampleState false)
        ("a", 1))
        ∈ (evaluateDecisionFeasibility sampleState sampleState.statistics
            none false).perAttr
    ∧ (0 ≤ (evaluateDecisionFeasibility sampleState sampleState.statistics
          none false).seatsRemaining
        ∧ 0 ≤ (feasPerAttrOf sampleState.statistics
            (remainingSeats sampleState false) ("a", 1)).sd) := by
  have hmem : ("a", feasPerAttrOf sampleState.statistics
      (remainingSeats sampleState false) ("a", 1))
      ∈ (evaluateDecisionFeasibility sampleState sampleState.statistics
          none false).perAttr := by
    simp [evaluateDecisionFeasibility, computeDeficits, sampleState, lookupD,
      lookupA]
  have h := c10_feasibility_total_and_clamped sampleState sampleState.statistics
    none false
  exact ⟨hmem, h.1, (h.2.2 _ hmem).2.2.2⟩


/-! ## C7: hypothetical deficit application -/

theorem lookupA_eq_none_of_not_mem {α : Type} {l : List (String × α)}
    {a : String} (h : a ∉ l.map Prod.fst) : lookupA l a = none := by
  induction l with
  | nil => rfl
  | cons p rest ih =>
    simp only [List.map_cons, List.mem_cons, not_or] at h
    simp [lookupA, h.1, ih h.2]

/-- With duplicate-free person keys, the mutation loop of
evaluateDecisionFeasibility is the pointwise map that decrements (floored)
exactly the entries whose attribute the person possesses. -/
theorem applyPersonToDeficits_eq_map (attrs : List (String × Bool))
    (ds : List (String × ℕ)) (h : (attrs.map Prod.fst).Nodup) :
    applyPersonToDeficits ds attrs
      = ds.map (fun an =>
          (an.1, if lookupD attrs an.1 false then an.2 - 1 else an.2)) := by
  induction attrs generalizing ds with
  | nil =>
    simp [applyPersonToDeficits, lookupD, lookupA]
  | cons ab rest ih =>
    obtain ⟨k, b⟩ := ab
    simp only [List.map_cons, List.nodup_cons] at h
    obtain ⟨hk, hrest⟩ := h
    have hknone : lookupA rest k = none := lookupA_eq_none_of_not_mem hk
    simp only [applyPersonToDeficits, List.foldl_cons] at *
    cases b with
    | false =>
      simp only [if_neg (by simp : ¬ (false = true))]
      rw [ih ds hrest]
      apply List.map_congr_left
      intro an _
      by_cases hak : an.1 = k
      · simp [lookupD, lookupA, hak, hknone]
      · simp [lookupD, lookupA, hak]
    | true =>
      rw [if_pos rfl]
      rw [ih (mapAtKey ds k (fun d => d - 1)) hrest]
      simp only [mapAtKey, List.map_map]
      apply List.map_congr_left
      intro an _
      by_cases hak : an.1 = k
      · simp [Function.comp, lookupD, lookupA, hak, hknone]
      · simp [Function.comp, lookupD, lookupA, hak]

/-- C7: with a candidate supplied, evaluateDecisionFeasibility projects the
state deficits unchanged when rejecting, and when accepting reduces exactly
the deficit entries for attributes the candidate possesses, each by one and
floored at zero, leaving every other entry unchanged (keys in constraint
order). -/
theorem c7_hypothetical_deficit_application (state : CurrentState)
    (stats : AttributeStatistics) (person : Person) (acceptSeat : Bool)
    (h : (person.attributes.map Prod.fst).Nodup) :
    (evaluateDecisionFeasibility state stats (some person) acceptSeat).perAttr.map
        (fun pr => (pr.1, pr.2.need))
      = (computeDeficits state).map
          (fun an =>
            (an.1,
              if acceptSeat && lookupD person.attributes an.1 false
              then an.2 - 1 else an.2)) := by
  cases acceptSeat with
  | false =>
    simp only [evaluateDecisionFeasibility, List.map_map]
    apply List.map_congr_left
    intro an _
    simp [feasPerAttrOf]
  | true =>
    simp only [evaluateDecisionFeasibility,
      applyPersonToDeficits_eq_map person.attributes _ h, List.map_map]
    apply List.map_congr_left
    intro an _
    simp [feasPerAttrOf]

/-- Witness for C7 at a concrete accepting decision on sampleState. -/
theorem c7_hypothetical_deficit_application_witness :
    (((Person.mk 0 [("a", true)]).attributes.map Prod.fst).Nodup)
    ∧ (evaluateDecisionFeasibility sampleState sampleState.statistics
          (some (Person.mk 0 [("a", true)])) true).perAttr.map
            (fun pr => (pr.1, pr.2.need))
        = (computeDeficits sampleState).map
            (fun an =>
              (an.1,
                if true && lookupD (Person.mk 0 [("a", true)]).attributes an.1 false
                then an.2 - 1 else an.2)) := by
  constructor
  · simp
  · exact c7_hypothetical_deficit_application sampleState sampleState.statistics
      (Person.mk 0 [("a", true)]) true (by simp)

/-! ## C9: unknown constraint fails loudly, calculateAllSlacks never does -/

theorem allSlacksStep_fold (state : CurrentState) (remSeats : ℝ)
    (l : List Constraint)
    (h : ∀ c ∈ l, (state.constraints.find? (fun c2 => c2.attr == c.attr)).isSome) :
    ∀ sl dt, ∃ sl2 dt2,
      l.foldl (allSlacksStep state remSeats) (some (sl, dt)) = some (sl2, dt2)
      ∧ sl2.map Prod.fst = sl.map Prod.fst ++ l.map Constraint.attr := by
  induction l with
  | nil => exact fun sl dt => ⟨sl, dt, rfl, by simp⟩
  | cons c rest ih =>
    intro sl dt
    obtain ⟨c2, hc2⟩ :=
      Option.isSome_iff_exists.mp (h c (List.mem_cons_self c rest))
    have hr : ∃ r, calculateConstraintSlack c.attr state remSeats = some r := by
      unfold calculateConstraintSlack
      rw [hc2]
      exact ⟨_, rfl⟩
    obtain ⟨r, hr⟩ := hr
    have hstep :
        allSlacksStep state remSeats (some (sl, dt)) c
          = some (sl ++ [(c.attr, r.slack)], dt ++ [r]) := by
      unfold allSlacksStep
      rw [hr]
    rw [List.foldl_cons, hstep]
    obtain ⟨sl2, dt2, heq, hkeys⟩ :=
      ih (fun c3 hc3 => h c3 (List.mem_cons_of_mem _ hc3))
        (sl ++ [(c.attr, r.slack)]) (dt ++ [r])
    refine ⟨sl2, dt2, heq, ?_⟩
    rw [hkeys]
    simp

/-- C9: looking up the slack of an attribute that no constraint carries
yields the modelled "Constraint not found" error (none) instead of a
default, while calculateAllSlacks, which iterates only over the state's own
constraints, always succeeds and produces one slack per constraint, in
order. -/
theorem c9_unknown_constraint_fails_loudly :
    (∀ (a : String) (state : CurrentState) (remSeats : ℝ),
        (∀ c ∈ state.constraints, c.attr ≠ a) →
        calculateConstraintSlack a state remSeats = none)
    ∧ ∀ state : CurrentState, ∃ out,
        calculateAllSlacks state = some out
        ∧ out.1.map Prod.fst = state.constraints.map Constraint.attr := by
  constructor
  · intro a state remSeats h
    have hfind : state.constraints.find? (fun c2 => c2.attr == a) = none := by
      rw [List.find?_eq_none]
      intro c hc
      simpa using h c hc
    unfold calculateConstraintSlack
    rw [hfind]
  · intro state
    have h : ∀ c ∈ state.constraints,
        (state.constraints.find? (fun c2 => c2.attr == c.attr)).isSome := by
      intro c hc
      rw [List.find?_isSome]
      exact ⟨c, hc, by simp⟩
    obtain ⟨sl2, dt2, heq, hkeys⟩ :=
      allSlacksStep_fold state ((VENUE_CAPACITY : ℝ) - (state.admittedCount : ℝ))
        state.constraints h [] []
    refine ⟨(sl2, dt2), ?_, by simpa using hkeys⟩
    unfold calculateAllSlacks
    exact heq

/-- Witness for C9: the unknown attribute "zzz" errors on sampleState, and
calculateAllSlacks on sampleState succeeds with the key list ["a"]. -/
theorem c9_unknown_constraint_fails_loudly_witness :
    (∀ c ∈ sampleState.constraints, c.attr ≠ "zzz")
    ∧ calculateConstraintSlack "zzz" sampleState 5 = none
    ∧ ∃ out, calculateAllSlacks sampleState = some out
        ∧ out.1.map Prod.fst = sampleState.constraints.map Constraint.attr := by
  have hne : ∀ c ∈ sampleState.constraints, c.attr ≠ "zzz" := by
    intro c hc
    simp [sampleState] at hc
    simp [hc]
  exact ⟨hne, c9_unknown_constraint_fails_loudly.1 "zzz" sampleState 5 hne,
    c9_unknown_constraint_fails_loudly.2 sampleState⟩


/-! ## C5: dual prices stay inside [minDual, maxDual] -/

theorem foldl_min_le_init (xs : List ℝ) (a : ℝ) : xs.foldl min a ≤ a := by
  induction xs generalizing a with
  | nil => exact le_refl a
  | cons x xs ih => exact le_trans (ih (min a x)) (min_le_left a x)

theorem foldl_min_le_mem (xs : List ℝ) (a : ℝ) {y : ℝ} (hy : y ∈ xs) :
    xs.foldl min a ≤ y := by
  induction xs generalizing a with
  | nil => simp at hy
  | cons x xs ih =>
    rw [List.foldl_cons]
    rcases List.mem_cons.mp hy with h | h
    · subst h
      exact le_trans (foldl_min_le_init xs _) (min_le_right _ _)
    · exact ih (min a x) h

theorem le_foldl_max_init (xs : List ℝ) (a : ℝ) : a ≤ xs.foldl max a := by
  induction xs generalizing a with
  | nil => exact le_refl a
  | cons x xs ih => exact le_trans (le_max_left a x) (ih (max a x))

theorem le_foldl_max_mem (xs : List ℝ) (a : ℝ) {y : ℝ} (hy : y ∈ xs) :
    y ≤ xs.foldl max a := by
  induction xs generalizing a with
  | nil => simp at hy
  | cons x xs ih =>
    rw [List.foldl_cons]
    rcases List.mem_cons.mp hy with h | h
    · subst h
      exact le_trans (le_max_right _ _) (le_foldl_max_init xs _)
    · exact ih (max a x) h

theorem minInverseOf_le {l : List ℝ} {y : ℝ} (hy : y ∈ l) :
    ShadowPricingUtils.minInverseOf l ≤ y := by
  cases l with
  | nil => simp at hy
  | cons x xs =>
    unfold ShadowPricingUtils.minInverseOf
    rcases List.mem_cons.mp hy with h | h
    · subst h
      exact foldl_min_le_init xs y
    · exact foldl_min_le_mem xs x h

theorem le_maxInverseOf {l : List ℝ} {y : ℝ} (hy : y ∈ l) :
    y ≤ ShadowPricingUtils.maxInverseOf l := by
  cases l with
  | nil => simp at hy
  | cons x xs =>
    unfold ShadowPricingUtils.maxInverseOf
    rcases List.mem_cons.mp hy with h | h
    · subst h
      exact le_foldl_max_init xs y
    · exact le_foldl_max_mem xs x h

/-- Every rarity-normalized seed of ShadowPricingUtils.initDuals lies in
[0.5, 5.0]. -/
theorem initDuals_seed_bounds (constraints : List Constraint)
    (stats : AttributeStatistics) :
    ∀ pr ∈ ShadowPricingUtils.initDuals constraints stats,
      (0.5 : ℝ) ≤ pr.2 ∧ pr.2 ≤ 5 := by
  intro pr hpr
  unfold ShadowPricingUtils.initDuals at hpr
  simp only [List.mem_map] at hpr
  obtain ⟨c, hc, rfl⟩ := hpr
  set inv := ShadowPricingUtils.inverseFreqOf stats c with hinv
  have hmem : inv ∈ constraints.map (ShadowPricingUtils.inverseFreqOf stats) :=
    List.mem_map.mpr ⟨c, hc, rfl⟩
  set lo := ShadowPricingUtils.minInverseOf
    (constraints.map (ShadowPricingUtils.inverseFreqOf stats)) with hlo
  set hi := ShadowPricingUtils.maxInverseOf
    (constraints.map (ShadowPricingUtils.inverseFreqOf stats)) with hhi
  have h1 : lo ≤ inv := minInverseOf_le hmem
  have h2 : inv ≤ hi := le_maxInverseOf hmem
  by_cases hrange : 0 < hi - lo
  · simp only [if_pos hrange]
    have ht0 : 0 ≤ (inv - lo) / (hi - lo) :=
      div_nonneg (by linarith) (le_of_lt hrange)
    have ht1 : (inv - lo) / (hi - lo) ≤ 1 :=
      (div_le_one hrange).mpr (by linarith)
    constructor
    · linarith
    · linarith
  · simp only [if_neg hrange]
    norm_num

/-- mapAtKey keeps values inside [lo, hi] when both the input values and
the rewritten values are. -/
theorem mapAtKey_bounds {lo hi : ℝ} {l : List (String × ℝ)} {k : String}
    {f : ℝ → ℝ} (hb : ∀ pr ∈ l, lo ≤ pr.2 ∧ pr.2 ≤ hi)
    (hf : ∀ d, lo ≤ f d ∧ f d ≤ hi) :
    ∀ pr ∈ mapAtKey l k f, lo ≤ pr.2 ∧ pr.2 ≤ hi := by
  intro pr hpr
  unfold mapAtKey at hpr
  simp only [List.mem_map] at hpr
  obtain ⟨q, hq, rfl⟩ := hpr
  by_cases hqk : q.1 = k
  · simp only [if_pos hqk]
    exact hf q.2
  · simp only [if_neg hqk]
    exact hb q hq

theorem clamp_bounds {lo hi x : ℝ} (h : lo ≤ hi) :
    lo ≤ max lo (min hi x) ∧ max lo (min hi x) ≤ hi := by
  constructor
  · exact le_max_left lo _
  · exact max_le h (min_le_left hi x)

/-- Any fold whose every rewrite clamps into [lo, hi] preserves the range. -/
theorem clampFold_bounds {lo hi : ℝ} (hlh : lo ≤ hi)
    (expr : ℝ → (String × ℝ) → ℝ) (slacks : List (String × ℝ)) :
    ∀ ds : List (String × ℝ), (∀ pr ∈ ds, lo ≤ pr.2 ∧ pr.2 ≤ hi) →
    ∀ pr ∈ slacks.foldl
        (fun ds sp =>
          if (lookupA ds sp.1).isSome then
            mapAtKey ds sp.1 (fun d => max lo (min hi (expr d sp)))
          else ds) ds,
      lo ≤ pr.2 ∧ pr.2 ≤ hi := by
  induction slacks with
  | nil => exact fun ds hb => hb
  | cons sp rest ih =>
    intro ds hb
    rw [List.foldl_cons]
    apply ih
    by_cases hs : (lookupA ds sp.1).isSome
    · rw [if_pos hs]
      exact mapAtKey_bounds hb (fun d => clamp_bounds hlh)
    · rw [if_neg hs]
      exact hb

theorem updateDualsV1_preserves_bounds (t : DualTracker)
    (slacks : List (String × ℝ))
    (hb : ∀ pr ∈ t.duals,
      DualTrackerV1.minDual ≤ pr.2 ∧ pr.2 ≤ DualTrackerV1.maxDual) :
    ∀ pr ∈ (DualTrackerV1.updateDuals t slacks).duals,
      DualTrackerV1.minDual ≤ pr.2 ∧ pr.2 ≤ DualTrackerV1.maxDual := by
  intro pr hpr
  refine clampFold_bounds ?_ (fun d sp => d + t.learningRate * sp.2)
    slacks t.duals hb pr ?_
  · norm_num [DualTrackerV1.minDual, DualTrackerV1.maxDual]
  · simpa [DualTrackerV1.updateDuals] using hpr

theorem updateDualsSPU_preserves_bounds (t : DualTracker)
    (slacks : List (String × ℝ))
    (hb : ∀ pr ∈ t.duals,
      ShadowPricingUtils.minDual ≤ pr.2 ∧ pr.2 ≤ ShadowPricingUtils.maxDual) :
    ∀ pr ∈ (ShadowPricingUtils.updateDuals t slacks).duals,
      ShadowPricingUtils.minDual ≤ pr.2 ∧ pr.2 ≤ ShadowPricingUtils.maxDual := by
  intro pr hpr
  refine clampFold_bounds ?_
    (fun d sp => d - t.learningRate * (sp.2 / (VENUE_CAPACITY : ℝ)))
    slacks t.duals hb pr ?_
  · norm_num [ShadowPricingUtils.minDual, ShadowPricingUtils.maxDual]
  · simpa [ShadowPricingUtils.updateDuals] using hpr

theorem foldl_updatesV1_bounds (updates : List (List (String × ℝ))) :
    ∀ t : DualTracker,
    (∀ pr ∈ t.duals,
      DualTrackerV1.minDual ≤ pr.2 ∧ pr.2 ≤ DualTrackerV1.maxDual) →
    ∀ pr ∈ (updates.foldl DualTrackerV1.updateDuals t).duals,
      DualTrackerV1.minDual ≤ pr.2 ∧ pr.2 ≤ DualTrackerV1.maxDual := by
  induction updates with
  | nil => exact fun t hb => hb
  | cons u rest ih =>
    intro t hb
    rw [List.foldl_cons]
    exact ih _ (updateDualsV1_preserves_bounds t u hb)

theorem foldl_updatesSPU_bounds (updates : List (List (String × ℝ))) :
    ∀ t : DualTracker,
    (∀ pr ∈ t.duals,
      ShadowPricingUtils.minDual ≤ pr.2 ∧ pr.2 ≤ ShadowPricingUtils.maxDual) →
    ∀ pr ∈ (updates.foldl ShadowPricingUtils.updateDuals t).duals,
      ShadowPricingUtils.minDual ≤ pr.2 ∧ pr.2 ≤ ShadowPricingUtils.maxDual := by
  induction updates with
  | nil => exact fun t hb => hb
  | cons u rest ih =>
    intro t hb
    rw [List.foldl_cons]
    exact ih _ (updateDualsSPU_preserves_bounds t u hb)

/-- C5: starting from either revision's own seeding and applying any finite
sequence of updateDuals calls with arbitrary slack maps, every tracked price
stays inside that revision's [minDual, maxDual] (every prefix of the update
sequence is itself such a sequence, so the bound holds after each update). -/
theorem c5_dual_prices_bounded (constraints : List Constraint)
    (stats : AttributeStatistics) (eta eta2 : ℝ)
    (updates : List (List (String × ℝ))) :
    (∀ pr ∈ (updates.foldl DualTrackerV1.updateDuals
        { learningRate := eta,
          duals := DualTrackerV1.initDuals constraints }).duals,
      DualTrackerV1.minDual ≤ pr.2 ∧ pr.2 ≤ DualTrackerV1.maxDual)
    ∧ ∀ pr ∈ (updates.foldl ShadowPricingUtils.updateDuals
        { learningRate := eta2,
          duals := ShadowPricingUtils.initDuals constraints stats }).duals,
      ShadowPricingUtils.minDual ≤ pr.2 ∧ pr.2 ≤ ShadowPricingUtils.maxDual := by
  constructor
  · apply foldl_updatesV1_bounds
    intro pr hpr
    unfold DualTrackerV1.initDuals at hpr
    simp only [List.mem_map] at hpr
    obtain ⟨c, _, rfl⟩ := hpr
    norm_num [DualTrackerV1.minDual, DualTrackerV1.maxDual]
  · apply foldl_updatesSPU_bounds
    intro pr hpr
    have h := initDuals_seed_bounds constraints stats pr hpr
    constructor
    · unfold ShadowPricingUtils.minDual
      linarith [h.1]
    · unfold ShadowPricingUtils.maxDual
      linarith [h.2]

/-- Witness for C5: one extreme update on a single seeded constraint keeps
the V1 price at a value inside [0, 10] (and the rarity-seeded price inside
[0, 20]). -/
theorem c5_dual_prices_bounded_witness :
    ∃ pr ∈ ([[("a", (-1000000 : ℝ))]].foldl DualTrackerV1.updateDuals
        { learningRate := (0.3 : ℝ),
          duals := DualTrackerV1.initDuals [{ attr := "a", minCount := 1 }] }).duals,
      DualTrackerV1.minDual ≤ pr.2 ∧ pr.2 ≤ DualTrackerV1.maxDual := by
  have hmem : ("a",
      max DualTrackerV1.minDual
        (min DualTrackerV1.maxDual (0 + (0.3 : ℝ) * (-1000000 : ℝ))))
      ∈ ([[("a", (-1000000 : ℝ))]].foldl DualTrackerV1.updateDuals
        { learningRate := (0.3 : ℝ),
          duals := DualTrackerV1.initDuals [{ attr := "a", minCount := 1 }] }).duals := by
    simp [DualTrackerV1.updateDuals, DualTrackerV1.initDuals, mapAtKey,
      lookupA]
    norm_num
  exact ⟨_, hmem,
    (c5_dual_prices_bounded [{ attr := "a", minCount := 1 }]
      { relativeFrequencies := [("a", 1)] } 0.3 0.3
      [[("a", (-1000000 : ℝ))]]).1 _ hmem⟩


/-! ## C4: deficit-restricted shadow price sum -/

/-- The deficit of attribute a in the sense of the spec: max(0, minCount
minus admitted count) for the (first) constraint on a, 0 when a is not
constrained. -/
def attrDeficit (state : CurrentState) (a : String) : ℕ :=
  match state.constraints.find? (fun c => c.attr == a) with
  | none => 0
  | some c => c.minCount - lookupD state.admittedAttributes a 0

/-- Specification-side definition of the C4 claim (written from the spec's
words, for comparison with the code): the sum of shadow prices over exactly
those attributes the person possesses whose deficit is still strictly
positive. -/
def specShadowPriceSum (person : Person) (t : DualTracker)
    (state : CurrentState) : ℝ :=
  (person.attributes.map
    (fun ab =>
      if ab.2 ∧ 0 < attrDeficit state ab.1 then getDualValue t ab.1 else 0)).sum

theorem getDualValue_nonneg (t : DualTracker)
    (hpos : ∀ pr ∈ t.duals, 0 ≤ pr.2) (a : String) : 0 ≤ getDualValue t a := by
  unfold getDualValue lookupD
  cases h : lookupA t.duals a with
  | none => simp
  | some b => simpa using hpos (a, b) (lookupA_mem h)

theorem scoreStepSPU_fold (state : CurrentState) (t : DualTracker)
    (hnn : ∀ a, 0 ≤ getDualValue t a) (attrs : List (String × Bool)) :
    ∀ a0 h0, (attrs.foldl (ShadowPricingUtils.scoreStep state t) (a0, h0)).1
      = a0 + (attrs.map
          (fun ab =>
            if ab.2 = true ∧ 0 < attrDeficit state ab.1 then getDualValue t ab.1
            else 0)).sum := by
  induction attrs with
  | nil =>
    intro a0 h0
    simp
  | cons ab rest ih =>
    intro a0 h0
    rw [List.foldl_cons, List.map_cons, List.sum_cons]
    by_cases hab : ab.2 = true
    · cases hfind : state.constraints.find? (fun c => c.attr == ab.1) with
      | none =>
        have hd : attrDeficit state ab.1 = 0 := by
          unfold attrDeficit
          rw [hfind]
        have hstep : ShadowPricingUtils.scoreStep state t (a0, h0) ab
            = (a0, h0 ++ [ab.1]) := by
          simp only [ShadowPricingUtils.scoreStep, if_pos hab, hfind]
        rw [hstep, ih,
          if_neg (by simp [hd] : ¬ (ab.2 = true ∧ 0 < attrDeficit state ab.1))]
        ring
      | some c =>
        have habd : attrDeficit state ab.1
            = c.minCount - lookupD state.admittedAttributes ab.1 0 := by
          unfold attrDeficit
          rw [hfind]
        by_cases hle : (c.minCount : ℤ)
            - ((lookupD state.admittedAttributes ab.1 0 : ℕ) : ℤ) ≤ 0
        · have hd : attrDeficit state ab.1 = 0 := by
            rw [habd]
            omega
          have hstep : ShadowPricingUtils.scoreStep state t (a0, h0) ab
              = (a0, h0 ++ [ab.1]) := by
            simp only [ShadowPricingUtils.scoreStep, if_pos hab, hfind,
              if_pos hle]
          rw [hstep, ih,
            if_neg (by simp [hd] : ¬ (ab.2 = true ∧ 0 < attrDeficit state ab.1))]
          ring
        · have hd : 0 < attrDeficit state ab.1 := by
            rw [habd]
            omega
          by_cases hl : 0 < getDualValue t ab.1
          · have hstep : ShadowPricingUtils.scoreStep state t (a0, h0) ab
                = (a0 + getDualValue t ab.1, h0 ++ [ab.1]) := by
              simp only [ShadowPricingUtils.scoreStep, if_pos hab, hfind,
                if_neg hle, if_pos hl]
            rw [hstep, ih, if_pos ⟨hab, hd⟩]
            ring
          · have hz : getDualValue t ab.1 = 0 :=
              le_antisymm (not_lt.mp hl) (hnn ab.1)
            have hstep : ShadowPricingUtils.scoreStep state t (a0, h0) ab
                = (a0, h0 ++ [ab.1]) := by
              simp only [ShadowPricingUtils.scoreStep, if_pos hab, hfind,
                if_neg hle, if_neg hl]
            rw [hstep, ih, if_pos ⟨hab, hd⟩, hz]
            ring
    · have hstep : ShadowPricingUtils.scoreStep state t (a0, h0) ab
          = (a0, h0) := by
        simp only [ShadowPricingUtils.scoreStep, if_neg hab]
      rw [hstep, ih, if_neg (fun h => hab h.1)]
      ring

/-- The concrete state of the C4 counterexample: the single constraint on
"a" has minCount 0, so its minimum is already met. -/
def metState : CurrentState :=
  { admittedCount := 0
    rejectedCount := 0
    admittedAttributes := []
    constraints := [{ attr := "a", minCount := 0 }]
    statistics := { relativeFrequencies := [("a", 1)] } }

/-- C4 counterexample: the PersonScorer.ts scorePerson revision pays price 5
for attribute "a" even though the constraint on "a" is already met
(deficit 0), while the claim's deficit-restricted sum is 0. -/
theorem c4_person_scorer_counts_met_constraint :
    (PersonScorer.scorePerson { personIndex := 0, attributes := [("a", true)] }
        { learningRate := 0.15, duals := [("a", 5)] } metState).shadowPriceSum = 5
    ∧ specShadowPriceSum { personIndex := 0, attributes := [("a", true)] }
        { learningRate := 0.15, duals := [("a", 5)] } metState = 0
    ∧ attrDeficit metState "a" = 0
    ∧ (5 : ℝ) ≠ 0 := by
  refine ⟨?_, ?_, ?_, by norm_num⟩
  · norm_num [PersonScorer.scorePerson, PersonScorer.scoreStep, getDualValue,
      lookupD, lookupA]
  · norm_num [specShadowPriceSum, attrDeficit, metState, lookupD, lookupA,
      List.find?]
  · norm_num [attrDeficit, metState, lookupD, lookupA, List.find?]

/-- C4 amended: the ShadowPricingUtils scorePerson revision does satisfy the
claim — whenever every tracked price is non-negative (which the tracker
guarantees), its shadowPriceSum is exactly the sum of prices over the
possessed attributes with strictly positive deficit, and in both revisions
totalValue = shadowPriceSum - seatCost; the PersonScorer.ts revision instead
counts every possessed attribute with positive price. -/
theorem c4_amended_scorer_deficit_restricted (person : Person)
    (t : DualTracker) (state : CurrentState)
    (hpos : ∀ pr ∈ t.duals, 0 ≤ pr.2) :
    (ShadowPricingUtils.scorePerson person t state).shadowPriceSum
        = specShadowPriceSum person t state
    ∧ (ShadowPricingUtils.scorePerson person t state).totalValue
        = (ShadowPricingUtils.scorePerson person t state).shadowPriceSum
            - (ShadowPricingUtils.scorePerson person t state).seatCost
    ∧ (PersonScorer.scorePerson person t state).totalValue
        = (PersonScorer.scorePerson person t state).shadowPriceSum
            - (PersonScorer.scorePerson person t state).seatCost := by
  refine ⟨?_, rfl, rfl⟩
  unfold ShadowPricingUtils.scorePerson specShadowPriceSum
  simp only
  rw [scoreStepSPU_fold state t (getDualValue_nonneg t hpos) person.attributes 0 []]
  norm_num

/-- Witness for C4's amended theorem at a concrete helper person. -/
theorem c4_amended_scorer_deficit_restricted_witness :
    (∀ pr ∈ (DualTracker.mk 0.15 [("a", 5)]).duals, (0 : ℝ) ≤ pr.2)
    ∧ (ShadowPricingUtils.scorePerson
          { personIndex := 0, attributes := [("a", true)] }
          (DualTracker.mk 0.15 [("a", 5)]) sampleState).shadowPriceSum
        = specShadowPriceSum { personIndex := 0, attributes := [("a", true)] }
            (DualTracker.mk 0.15 [("a", 5)]) sampleState := by
  have hpos : ∀ pr ∈ (DualTracker.mk 0.15 [("a", 5)]).duals, (0 : ℝ) ≤ pr.2 := by
    intro pr hpr
    simp at hpr
    rw [hpr]
    norm_num
  exact ⟨hpos,
    (c4_amended_scorer_deficit_restricted
        { personIndex := 0, attributes := [("a", true)] }
        (DualTracker.mk 0.15 [("a", 5)]) sampleState hpos).1⟩


/-! ## C3: the analytical LP solver's closed form -/

/-- The per-constraint ceiling of the C3 claim (written from the spec's
words, for comparison with the code): defined exactly for constraints with
personContribution = 1. -/
def lpCeilOf (c : LPConstraint) : Option ℝ :=
  if c.personContribution = 1
  then some ((c.scaledCapacity - (c.currentAdmitted : ℝ)) / c.personContribution)
  else none

/-- Specification-side optimum of the C3 claim: the minimum of 1 and every
per-constraint ceiling over constraints the person contributes to. -/
def lpSpecCeilingMin (problem : ScaledLPProblem) : ℝ :=
  (problem.constraints.filterMap lpCeilOf).foldl min 1

theorem gmfp_fold (l : List LPConstraint)
    (h01 : ∀ c ∈ l, c.personContribution = 0 ∨ c.personContribution = 1)
    (hfeas : ∀ c ∈ l, (c.currentAdmitted : ℝ) ≤ c.scaledCapacity) :
    ∀ mp : ℝ, l.foldl gmfpStep mp = (l.filterMap lpCeilOf).foldl min mp := by
  induction l with
  | nil => intro mp; rfl
  | cons c rest ih =>
    intro mp
    have ih2 := ih (fun c2 h => h01 c2 (List.mem_cons_of_mem _ h))
      (fun c2 h => hfeas c2 (List.mem_cons_of_mem _ h))
    rw [List.foldl_cons]
    rcases h01 c (List.mem_cons_self c rest) with h0 | h1
    · have hnotpos : ¬ (0 : ℝ) < c.personContribution := by
        rw [h0]
        norm_num
      have hstep : gmfpStep mp c = mp := by
        simp only [gmfpStep, if_neg hnotpos]
      have hnone : lpCeilOf c = none := by
        unfold lpCeilOf
        rw [if_neg (by rw [h0]; norm_num)]
      rw [hstep, List.filterMap_cons_none hnone, ih2]
    · have hpos : (0 : ℝ) < c.personContribution := by
        rw [h1]
        norm_num
      have hcap : 0 ≤ (c.scaledCapacity - (c.currentAdmitted : ℝ))
          / c.personContribution :=
        div_nonneg (by linarith [hfeas c (List.mem_cons_self c rest)])
          (le_of_lt hpos)
      have hmax : max 0 ((c.scaledCapacity - (c.currentAdmitted : ℝ))
          / c.personContribution)
          = (c.scaledCapacity - (c.currentAdmitted : ℝ)) / c.personContribution :=
        max_eq_right hcap
      have hstep : gmfpStep mp c
          = min mp ((c.scaledCapacity - (c.currentAdmitted : ℝ))
              / c.personContribution) := by
        simp only [gmfpStep, if_pos hpos, hmax]
        by_cases hlt : (c.scaledCapacity - (c.currentAdmitted : ℝ))
            / c.personContribution < mp
        · rw [if_pos hlt, min_eq_right (le_of_lt hlt)]
        · rw [if_neg hlt, min_eq_left (not_lt.mp hlt)]
      have hsome : lpCeilOf c
          = some ((c.scaledCapacity - (c.currentAdmitted : ℝ))
              / c.personContribution) := by
        unfold lpCeilOf
        rw [if_pos h1]
      have hfm : List.filterMap lpCeilOf (c :: rest)
          = ((c.scaledCapacity - (c.currentAdmitted : ℝ))
              / c.personContribution) :: List.filterMap lpCeilOf rest := by
        rw [List.filterMap_cons, hsome]
      rw [hstep, hfm, List.foldl_cons, ih2]

/-- C3: solve returns admissionProbability 0 whenever some constraint
already exceeds its scaled capacity at x = 0, and otherwise returns exactly
the minimum of 1 and every per-constraint ceiling
(scaledCapacity - currentAdmitted) / personContribution over the
constraints the person contributes to, clamped to [0, 1].  (Stated for
problems whose contributions are 0/1, the only shape the formulator
produces.) -/
theorem c3_lp_solve_closed_form (problem : ScaledLPProblem)
    (h01 : ∀ c ∈ problem.constraints,
      c.personContribution = 0 ∨ c.personContribution = 1) :
    ((∃ c ∈ problem.constraints, c.scaledCapacity < (c.currentAdmitted : ℝ)) →
        (AnalyticalLPSolver.solve problem).admissionProbability = 0)
    ∧ ((∀ c ∈ problem.constraints,
          (c.currentAdmitted : ℝ) ≤ c.scaledCapacity) →
        (AnalyticalLPSolver.solve problem).admissionProbability
          = max 0 (min 1 (lpSpecCeilingMin problem))) := by
  constructor
  · intro hviol
    obtain ⟨c, hc, hlt⟩ := hviol
    have hfb : AnalyticalLPSolver.checkBasicFeasibility problem = false := by
      unfold AnalyticalLPSolver.checkBasicFeasibility
      rw [List.all_eq_false]
      refine ⟨c, hc, ?_⟩
      simp [hlt]
    unfold AnalyticalLPSolver.solve
    rw [hfb]
    rfl
  · intro hfeas
    have hfb : AnalyticalLPSolver.checkBasicFeasibility problem = true := by
      unfold AnalyticalLPSolver.checkBasicFeasibility
      rw [List.all_eq_true]
      intro c hc
      simp [not_lt.mpr (hfeas c hc)]
    unfold AnalyticalLPSolver.solve
    rw [hfb]
    simp only [if_true]
    unfold getMaxFeasibleProbability lpSpecCeilingMin
    rw [gmfp_fold problem.constraints h01 hfeas 1]

/-- Witness for C3 on a one-constraint problem with contribution 1. -/
theorem c3_lp_solve_closed_form_witness :
    (∀ c ∈ (ScaledLPProblem.mk
        [{ attr := "a", currentAdmitted := 0, scaledCapacity := 1,
           tolerance := 0.1, personContribution := 1,
           deficitWeight := 0 }]).constraints,
      c.personContribution = 0 ∨ c.personContribution = 1)
    ∧ (∀ c ∈ (ScaledLPProblem.mk
        [{ attr := "a", currentAdmitted := 0, scaledCapacity := 1,
           tolerance := 0.1, personContribution := 1,
           deficitWeight := 0 }]).constraints,
      (c.currentAdmitted : ℝ) ≤ c.scaledCapacity)
    ∧ (AnalyticalLPSolver.solve (ScaledLPProblem.mk
        [{ attr := "a", currentAdmitted := 0, scaledCapacity := 1,
           tolerance := 0.1, personContribution := 1,
           deficitWeight := 0 }])).admissionProbability
        = max 0 (min 1 (lpSpecCeilingMin (ScaledLPProblem.mk
            [{ attr := "a", currentAdmitted := 0, scaledCapacity := 1,
               tolerance := 0.1, personContribution := 1,
               deficitWeight := 0 }]))) := by
  have h01 : ∀ c ∈ (ScaledLPProblem.mk
      [{ attr := "a", currentAdmitted := 0, scaledCapacity := 1,
         tolerance := 0.1, personContribution := 1,
         deficitWeight := 0 }]).constraints,
      c.personContribution = 0 ∨ c.personContribution = 1 := by
    intro c hc
    simp at hc
    rw [hc]
    norm_num
  have hfeas : ∀ c ∈ (ScaledLPProblem.mk
      [{ attr := "a", currentAdmitted := 0, scaledCapacity := 1,
         tolerance := 0.1, personContribution := 1,
         deficitWeight := 0 }]).constraints,
      (c.currentAdmitted : ℝ) ≤ c.scaledCapacity := by
    intro c hc
    simp at hc
    rw [hc]
    norm_num
  exact ⟨h01, hfeas, (c3_lp_solve_closed_form _ h01).2 hfeas⟩


/-! ## C2: behavior when every deficit is zero -/

/-- calculateAllSlacks never fails (each constraint's own attribute is found
by the lookup). -/
theorem calculateAllSlacks_total (state : CurrentState) :
    ∃ out, calculateAllSlacks state = some out := by
  have h : ∀ c ∈ state.constraints,
      (state.constraints.find? (fun c2 => c2.attr == c.attr)).isSome := by
    intro c hc
    rw [List.find?_isSome]
    exact ⟨c, hc, by simp⟩
  obtain ⟨sl2, dt2, heq, _⟩ :=
    allSlacksStep_fold state ((VENUE_CAPACITY : ℝ) - (state.admittedCount : ℝ))
      state.constraints h [] []
  exact ⟨(sl2, dt2), heq⟩

/-- C2 counterexample: on a state whose only constraint is already met
(every deficit zero), the embedded PureShadowPricing strategy REJECTS an
attribute-free candidate (score 0 falls short of the safe-filler threshold
0.8), so not every strategy accepts unconditionally. -/
theorem c2_pure_shadow_rejects_when_all_minima_met :
    allMinimaMet (computeDeficits metState) = true
    ∧ (PureShadowPricing.shouldAdmitPerson PureShadowPricing.freshInstance
        metState { personIndex := 0, attributes := [] }).map Prod.fst
      = some false := by
  constructor
  · simp [allMinimaMet, computeDeficits, metState, lookupD, lookupA]
  · norm_num [PureShadowPricing.shouldAdmitPerson, PureShadowPricing.seedStep,
      PureShadowPricing.refreshStep, PureShadowPricing.decideWith,
      PureShadowPricing.freshInstance, PureShadowPricing.DUAL_UPDATE_FREQUENCY,
      PureShadowPricing.SAFE_FILLER_THRESHOLD, DualTrackerV1.initDuals,
      PersonScorer.scorePerson, computeSeatCostRisk, VENUE_CAPACITY,
      allMinimaMet, computeDeficits, metState, lookupD, lookupA]

/-- C2 amended: when every constraint's deficit is zero, DeficitGreedy
accepts every candidate unconditionally; the embedded PureShadowPricing
strategy instead takes its safe-filler branch and accepts exactly when the
candidate's totalValue clears SAFE_FILLER_THRESHOLD (and so can reject). -/
theorem c2_amended_all_minima_met_behavior (state : CurrentState)
    (next : Person) (inst : PureShadowPricing.InstanceState)
    (h : ∀ an ∈ computeDeficits state, an.2 = 0) :
    DeficitGreedy.shouldAdmitPerson state next = true
    ∧ ∃ inst2, PureShadowPricing.shouldAdmitPerson inst state next
        = some (decide (PureShadowPricing.SAFE_FILLER_THRESHOLD
            ≤ (PersonScorer.scorePerson next inst2.tracker state).totalValue),
          inst2) := by
  have hmet : allMinimaMet (computeDeficits state) = true := by
    unfold allMinimaMet
    rw [List.all_eq_true]
    intro an han
    simpa using h an han
  constructor
  · have hsum : ((computeDeficits state).map (fun an => an.2)).sum = 0 := by
      apply List.sum_eq_zero
      intro x hx
      obtain ⟨an, han, rfl⟩ := List.mem_map.mp hx
      exact h an han
    simp [DeficitGreedy.shouldAdmitPerson, hsum]
  · unfold PureShadowPricing.shouldAdmitPerson
    have hrefresh : ∃ inst2,
        PureShadowPricing.refreshStep (PureShadowPricing.seedStep inst state)
          state = some inst2 := by
      unfold PureShadowPricing.refreshStep
      by_cases hcond : (PureShadowPricing.DUAL_UPDATE_FREQUENCY : ℤ)
          ≤ ((state.admittedCount + state.rejectedCount : ℕ) : ℤ)
            - ((PureShadowPricing.seedStep inst state).lastDualUpdate : ℤ)
      · rw [if_pos hcond]
        obtain ⟨out, hout⟩ := calculateAllSlacks_total state
        obtain ⟨sl, dt⟩ := out
        rw [hout]
        exact ⟨_, rfl⟩
      · rw [if_neg hcond]
        exact ⟨_, rfl⟩
    obtain ⟨inst2, h2⟩ := hrefresh
    refine ⟨inst2, ?_⟩
    rw [h2]
    simp only [PureShadowPricing.decideWith, if_pos hmet]

/-- Witness for C2's amended theorem at a concrete all-minima-met state. -/
theorem c2_amended_all_minima_met_behavior_witness :
    (∀ an ∈ computeDeficits metState, an.2 = 0)
    ∧ DeficitGreedy.shouldAdmitPerson metState
        { personIndex := 0, attributes := [] } = true := by
  have h : ∀ an ∈ computeDeficits metState, an.2 = 0 := by
    intro an han
    simp [computeDeficits, metState, lookupD, lookupA] at han
    rw [han]
  exact ⟨h, (c2_amended_all_minima_met_behavior metState
    { personIndex := 0, attributes := [] }
    PureShadowPricing.freshInstance h).1⟩


/-! ## C6: monotonicity of the statistical slack -/

/-- C6 counterexample: with probability 1/2 and zero need, raising
seatsRemaining from 0 to 1 strictly DECREASES the slack
(0 versus 1/2 - SAFETY_Z/2 = -3/40), because the safety buffer grows like
the square root of the seat count and dominates for small counts; so the
slack is not monotonically non-decreasing in seatsRemaining. -/
theorem c6_slack_not_monotone_in_seats :
    statSlack (1/2) 0 0 = 0
    ∧ statSlack (1/2) 1 0 = -(3/40)
    ∧ statSlack (1/2) 1 0 < statSlack (1/2) 0 0 := by
  have h0 : statSlack (1/2) 0 0 = 0 := by
    unfold statSlack
    norm_num
  have hq : Real.sqrt (max 0 ((1/2 : ℝ) * (1 - 1/2) * 1)) = 1/2 := by
    have : max (0:ℝ) ((1/2 : ℝ) * (1 - 1/2) * 1) = (1/2 : ℝ)^2 := by
      rw [max_eq_right (by norm_num)]
      norm_num
    rw [this, Real.sqrt_sq (by norm_num : (0:ℝ) ≤ 1/2)]
  have h1 : statSlack (1/2) 1 0 = -(3/40) := by
    unfold statSlack
    rw [hq]
    norm_num [SAFETY_Z]
  refine ⟨h0, h1, ?_⟩
  rw [h0, h1]
  norm_num

/-- C6 amended: the slack is monotonically non-increasing in need for all
inputs, and monotonically non-decreasing in seatsRemaining once the seat
count is large enough that the expectation term dominates the square-root
safety buffer — namely when SAFETY_Z^2 * (1-p) ≤ 4 * p * seatsRemaining
(the counterexample shows some seat-count restriction is necessary). -/
theorem c6_amended_slack_monotonicity :
    (∀ p s need1 need2 : ℝ, need1 ≤ need2 →
        statSlack p s need2 ≤ statSlack p s need1)
    ∧ (∀ p s1 s2 need : ℝ, 0 ≤ p → p ≤ 1 → 0 ≤ s1 → s1 ≤ s2 →
        SAFETY_Z ^ 2 * (1 - p) ≤ 4 * p * s1 →
        statSlack p s1 need ≤ statSlack p s2 need) := by
  constructor
  · intro p s need1 need2 hle
    unfold statSlack
    linarith
  · intro p s1 s2 need hp hp1 hs1 hle hcond
    have hs2 : 0 ≤ s2 := le_trans hs1 hle
    have hps : 0 ≤ p * (1 - p) := mul_nonneg hp (by linarith)
    unfold statSlack
    rw [max_eq_right (mul_nonneg hps hs1), max_eq_right (mul_nonneg hps hs2),
      Real.sqrt_mul hps s1, Real.sqrt_mul hps s2]
    set q := Real.sqrt (p * (1 - p)) with hqdef
    set t1 := Real.sqrt s1 with ht1def
    set t2 := Real.sqrt s2 with ht2def
    have hq0 : 0 ≤ q := Real.sqrt_nonneg _
    have ht10 : 0 ≤ t1 := Real.sqrt_nonneg _
    have htle : t1 ≤ t2 := Real.sqrt_le_sqrt hle
    have hs1t : s1 = t1 ^ 2 := (Real.sq_sqrt hs1).symm
    have hs2t : s2 = t2 ^ 2 := (Real.sq_sqrt hs2).symm
    have hq2 : q ^ 2 = p * (1 - p) := Real.sq_sqrt hps
    have hZ : (0:ℝ) ≤ SAFETY_Z := by norm_num [SAFETY_Z]
    have hkey : SAFETY_Z * q ≤ 2 * p * t1 := by
      have h1 : (SAFETY_Z * q) ^ 2 ≤ (2 * p * t1) ^ 2 := by
        have ha2 : (SAFETY_Z * q) ^ 2 = (SAFETY_Z ^ 2 * (1 - p)) * p := by
          rw [mul_pow, hq2]
          ring
        have hb2 : (2 * p * t1) ^ 2 = (4 * p * s1) * p := by
          rw [hs1t]
          ring
        rw [ha2, hb2]
        exact mul_le_mul_of_nonneg_right hcond hp
      have ha : 0 ≤ SAFETY_Z * q := mul_nonneg hZ hq0
      have hb : 0 ≤ 2 * p * t1 := by positivity
      have := Real.sqrt_le_sqrt h1
      rwa [Real.sqrt_sq ha, Real.sqrt_sq hb] at this
    rw [hs1t, hs2t]
    nlinarith [mul_le_mul_of_nonneg_right hkey (sub_nonneg.mpr htle),
      mul_nonneg hp (sq_nonneg (t2 - t1))]

/-- Witness for C6's amended theorem: need-monotonicity at (1/2, 10, 0, 1)
and seat-monotonicity at p = 1, s1 = 1, s2 = 4. -/
theorem c6_amended_slack_monotonicity_witness :
    ((0 : ℝ) ≤ 1
      ∧ statSlack (1/2) 10 1 ≤ statSlack (1/2) 10 0)
    ∧ ((0 : ℝ) ≤ 1 ∧ (1 : ℝ) ≤ 1 ∧ (1 : ℝ) ≤ 4
      ∧ SAFETY_Z ^ 2 * (1 - 1) ≤ 4 * 1 * 1
      ∧ statSlack 1 1 0 ≤ statSlack 1 4 0) := by
  refine ⟨⟨by norm_num, ?_⟩, by norm_num, by norm_num, by norm_num,
    by norm_num [SAFETY_Z], ?_⟩
  · exact c6_amended_slack_monotonicity.1 (1/2) 10 0 1 (by norm_num)
  · exact c6_amended_slack_monotonicity.2 1 1 4 0 (by norm_num) (by norm_num)
      (by norm_num) (by norm_num) (by norm_num [SAFETY_Z])


/-! ## C8: the reported bottleneck -/

theorem minSlackFold_some (stats : AttributeStatistics) (seats : ℝ)
    (l : List (String × ℕ)) :
    ∀ b : String × ℝ, ∃ r,
      l.foldl (minSlackStep stats seats) (some b) = some r
      ∧ ((r = b ∧ ∀ an ∈ l, 0 < an.2 →
            b.2 ≤ (feasPerAttrOf stats seats an).slack)
        ∨ ∃ l1 an l2, l = l1 ++ an :: l2 ∧ 0 < an.2
            ∧ r = (an.1, (feasPerAttrOf stats seats an).slack)
            ∧ (feasPerAttrOf stats seats an).slack < b.2
            ∧ (∀ q ∈ l1, 0 < q.2 →
                (feasPerAttrOf stats seats an).slack
                  < (feasPerAttrOf stats seats q).slack)
            ∧ (∀ q ∈ l2, 0 < q.2 →
                (feasPerAttrOf stats seats an).slack
                  ≤ (feasPerAttrOf stats seats q).slack)) := by
  induction l with
  | nil =>
    intro b
    exact ⟨b, rfl, Or.inl ⟨rfl, by simp⟩⟩
  | cons an rest ih =>
    intro b
    rw [List.foldl_cons]
    by_cases hc : 0 < an.2 ∧ (feasPerAttrOf stats seats an).slack < b.2
    · have hstep : minSlackStep stats seats (some b) an
          = some (an.1, (feasPerAttrOf stats seats an).slack) := by
        simp only [minSlackStep, if_pos hc]
      rw [hstep]
      obtain ⟨r, hfold, hcases⟩ := ih (an.1, (feasPerAttrOf stats seats an).slack)
      refine ⟨r, hfold, Or.inr ?_⟩
      rcases hcases with ⟨hrb, hall⟩ | ⟨l1, an2, l2, hsplit, hpos2, hr, hlt, hearly, hlate⟩
      · refine ⟨[], an, rest, by simp, hc.1, hrb, hc.2, by simp, ?_⟩
        intro q hq hqpos
        exact hall q hq hqpos
      · refine ⟨an :: l1, an2, l2, by simp [hsplit], hpos2, hr,
          lt_trans hlt hc.2, ?_, hlate⟩
        intro q hq hqpos
        rcases List.mem_cons.mp hq with h | hq2
        · subst h
          exact hlt
        · exact hearly q hq2 hqpos
    · have hstep : minSlackStep stats seats (some b) an = some b := by
        simp only [minSlackStep, if_neg hc]
      rw [hstep]
      obtain ⟨r, hfold, hcases⟩ := ih b
      refine ⟨r, hfold, ?_⟩
      rcases hcases with ⟨hrb, hall⟩ | ⟨l1, an2, l2, hsplit, hpos2, hr, hlt, hearly, hlate⟩
      · refine Or.inl ⟨hrb, ?_⟩
        intro q hq hqpos
        rcases List.mem_cons.mp hq with h | hq2
        · subst h
          by_contra hx
          push_neg at hx
          exact hc ⟨hqpos, hx⟩
        · exact hall q hq2 hqpos
      · refine Or.inr ⟨an :: l1, an2, l2, by simp [hsplit], hpos2, hr, hlt, ?_, hlate⟩
        intro q hq hqpos
        rcases List.mem_cons.mp hq with h | hq2
        · subst h
          have hble : b.2 ≤ (feasPerAttrOf stats seats q).slack := by
            by_contra hx
            push_neg at hx
            exact hc ⟨hqpos, hx⟩
          exact lt_of_lt_of_le hlt hble
        · exact hearly q hq2 hqpos

theorem minSlackFold_none (stats : AttributeStatistics) (seats : ℝ)
    (l : List (String × ℕ)) :
    (minSlackFold stats seats l = none ∧ ∀ an ∈ l, ¬ 0 < an.2)
    ∨ ∃ l1 an l2, l = l1 ++ an :: l2 ∧ 0 < an.2
        ∧ minSlackFold stats seats l
            = some (an.1, (feasPerAttrOf stats seats an).slack)
        ∧ (∀ q ∈ l1, 0 < q.2 →
            (feasPerAttrOf stats seats an).slack
              < (feasPerAttrOf stats seats q).slack)
        ∧ (∀ q ∈ l2, 0 < q.2 →
            (feasPerAttrOf stats seats an).slack
              ≤ (feasPerAttrOf stats seats q).slack) := by
  unfold minSlackFold
  induction l with
  | nil => exact Or.inl ⟨rfl, by simp⟩
  | cons an rest ih =>
    rw [List.foldl_cons]
    by_cases hpos : 0 < an.2
    · have hstep : minSlackStep stats seats none an
          = some (an.1, (feasPerAttrOf stats seats an).slack) := by
        simp only [minSlackStep, if_pos hpos]
      rw [hstep]
      obtain ⟨r, hfold, hcases⟩ :=
        minSlackFold_some stats seats rest
          (an.1, (feasPerAttrOf stats seats an).slack)
      right
      rcases hcases with ⟨hrb, hall⟩ | ⟨l1, an2, l2, hsplit, hpos2, hr, hlt, hearly, hlate⟩
      · refine ⟨[], an, rest, by simp, hpos, ?_, by simp, ?_⟩
        · rw [hfold, hrb]
        · intro q hq hqpos
          exact hall q hq hqpos
      · refine ⟨an :: l1, an2, l2, by simp [hsplit], hpos2, ?_, ?_, hlate⟩
        · rw [hfold, hr]
        · intro q hq hqpos
          rcases List.mem_cons.mp hq with h | hq2
          · subst h
            exact hlt
          · exact hearly q hq2 hqpos
    · have hstep : minSlackStep stats seats none an = none := by
        simp only [minSlackStep, if_neg hpos]
      rw [hstep]
      rcases ih with ⟨hnone, hall⟩ | ⟨l1, an2, l2, hsplit, hpos2, hfold, hearly, hlate⟩
      · refine Or.inl ⟨hnone, ?_⟩
        intro q hq
        rcases List.mem_cons.mp hq with h | hq2
        · subst h
          exact hpos
        · exact hall q hq2
      · refine Or.inr ⟨an :: l1, an2, l2, by simp [hsplit], hpos2, hfold, ?_, hlate⟩
        intro q hq hqpos
        rcases List.mem_cons.mp hq with h | hq2
        · subst h
          exact absurd hqpos hpos
        · exact hearly q hq2 hqpos


/-- The bottleneck characterization for an arbitrary deficit list: writing
pos for the positive-need entries of the perAttr list (in iteration order),
the reported pair is none/0 when pos is empty, is a lower bound on every
positive-need slack, and is attained at the FIRST positive-need entry whose
slack equals the minimum (every earlier positive-need entry is strictly
larger). -/
theorem minSlack_characterization (stats : AttributeStatistics) (seats : ℝ)
    (deficits : List (String × ℕ)) :
    (((deficits.map (fun an => (an.1, feasPerAttrOf stats seats an))).filter
          (fun pr => decide (0 < pr.2.need)) = [])
      → (minSlackFold stats seats deficits).map (fun b => b.1) = none
        ∧ ((minSlackFold stats seats deficits).map (fun b => b.2)).getD 0 = 0)
    ∧ (∀ pr ∈ (deficits.map (fun an => (an.1, feasPerAttrOf stats seats an))).filter
          (fun pr => decide (0 < pr.2.need)),
        ((minSlackFold stats seats deficits).map (fun b => b.2)).getD 0
          ≤ pr.2.slack)
    ∧ (((deficits.map (fun an => (an.1, feasPerAttrOf stats seats an))).filter
          (fun pr => decide (0 < pr.2.need)) ≠ [])
      → ∃ l1 pr l2,
          (deficits.map (fun an => (an.1, feasPerAttrOf stats seats an))).filter
            (fun pr => decide (0 < pr.2.need)) = l1 ++ pr :: l2
          ∧ (minSlackFold stats seats deficits).map (fun b => b.1) = some pr.1
          ∧ ((minSlackFold stats seats deficits).map (fun b => b.2)).getD 0
              = pr.2.slack
          ∧ ∀ q ∈ l1, pr.2.slack < q.2.slack) := by
  have hcomm : (deficits.map (fun an => (an.1, feasPerAttrOf stats seats an))).filter
        (fun pr => decide (0 < pr.2.need))
      = (deficits.filter (fun an => decide (0 < an.2))).map
          (fun an => (an.1, feasPerAttrOf stats seats an)) := by
    induction deficits with
    | nil => rfl
    | cons an rest ih =>
      simp only [List.map_cons, List.filter_cons]
      have hhead : decide (0 < (feasPerAttrOf stats seats an).need)
          = decide (0 < an.2) := rfl
      rw [hhead, ih]
      by_cases hpos : 0 < an.2
      · rw [if_pos (decide_eq_true hpos), if_pos (decide_eq_true hpos),
          List.map_cons]
      · have hneg : ¬ (decide (0 < an.2) = true) := by simpa using hpos
        rw [if_neg hneg, if_neg hneg]
  rcases minSlackFold_none stats seats deficits with
    ⟨hnone, hall⟩ | ⟨l1, an, l2, hsplit, hpos, hfold, hearly, hlate⟩
  · have hfilter : (deficits.map
        (fun an => (an.1, feasPerAttrOf stats seats an))).filter
          (fun pr => decide (0 < pr.2.need)) = [] := by
      rw [hcomm]
      have : deficits.filter (fun an => decide (0 < an.2)) = [] := by
        rw [List.filter_eq_nil_iff]
        intro an han
        simpa using hall an han
      rw [this]
      rfl
    refine ⟨fun _ => ⟨by rw [hnone]; rfl, by rw [hnone]; rfl⟩, ?_, ?_⟩
    · intro pr hpr
      rw [hfilter] at hpr
      exact absurd hpr (List.not_mem_nil pr)
    · intro hne
      exact absurd hfilter hne
  · have hfl1 : ∀ q ∈ (l1.filter (fun an => decide (0 < an.2))).map
        (fun an => (an.1, feasPerAttrOf stats seats an)),
        (feasPerAttrOf stats seats an).slack < q.2.slack := by
      intro q hq
      obtain ⟨q2, hq2, rfl⟩ := List.mem_map.mp hq
      obtain ⟨hq2m, hq2p⟩ := List.mem_filter.mp hq2
      exact hearly q2 hq2m (by simpa using hq2p)
    have hfl2 : ∀ q ∈ (l2.filter (fun an => decide (0 < an.2))).map
        (fun an => (an.1, feasPerAttrOf stats seats an)),
        (feasPerAttrOf stats seats an).slack ≤ q.2.slack := by
      intro q hq
      obtain ⟨q2, hq2, rfl⟩ := List.mem_map.mp hq
      obtain ⟨hq2m, hq2p⟩ := List.mem_filter.mp hq2
      exact hlate q2 hq2m (by simpa using hq2p)
    have hfilter : (deficits.map
        (fun an => (an.1, feasPerAttrOf stats seats an))).filter
          (fun pr => decide (0 < pr.2.need))
        = (l1.filter (fun an => decide (0 < an.2))).map
            (fun an => (an.1, feasPerAttrOf stats seats an))
          ++ (an.1, feasPerAttrOf stats seats an)
            :: (l2.filter (fun an => decide (0 < an.2))).map
                (fun an => (an.1, feasPerAttrOf stats seats an)) := by
      rw [hcomm, hsplit, List.filter_append,
        List.filter_cons_of_pos (by simpa using hpos), List.map_append,
        List.map_cons]
    refine ⟨?_, ?_, ?_⟩
    · intro hnil
      rw [hfilter] at hnil
      exact absurd hnil (by simp)
    · intro pr hpr
      rw [hfilter] at hpr
      have hgoal : ((minSlackFold stats seats deficits).map (fun b => b.2)).getD 0
          = (feasPerAttrOf stats seats an).slack := by
        rw [hfold]
        rfl
      rw [hgoal]
      rcases List.mem_append.mp hpr with hin1 | hin2
      · exact le_of_lt (hfl1 pr hin1)
      · rcases List.mem_cons.mp hin2 with h | hin3
        · subst h
          exact le_refl _
        · exact hfl2 pr hin3
    · intro _
      refine ⟨(l1.filter (fun an => decide (0 < an.2))).map
          (fun an => (an.1, feasPerAttrOf stats seats an)),
        (an.1, feasPerAttrOf stats seats an),
        (l2.filter (fun an => decide (0 < an.2))).map
          (fun an => (an.1, feasPerAttrOf stats seats an)),
        hfilter, by rw [hfold]; rfl, by rw [hfold]; rfl, hfl1⟩


/-- The concrete state of the C8 counterexample: constraint "a" is already
met (need 0) with slack 0, constraint "b" still needs 5 with slack 5. -/
def bottleneckState : CurrentState :=
  { admittedCount := 990
    rejectedCount := 0
    admittedAttributes := [("b", 990)]
    constraints := [{ attr := "a", minCount := 0 },
                    { attr := "b", minCount := 995 }]
    statistics := { relativeFrequencies := [("a", 0), ("b", 1)] } }

/-- C8 counterexample: the reported bottleneck is ("b", 5) although
constraint "a" (whose minimum is met, need 0) has the strictly smaller
slack 0 — the loop only considers constraints with positive deficit, so the
bottleneck is NOT the minimum over all constraints. -/
theorem c8_bottleneck_ignores_zero_need :
    (evaluateDecisionFeasibility bottleneckState bottleneckState.statistics
        none false).minSlackAttr = some "b"
    ∧ (evaluateDecisionFeasibility bottleneckState bottleneckState.statistics
        none false).minSlack = 5
    ∧ ∃ pa, lookupA (evaluateDecisionFeasibility bottleneckState
          bottleneckState.statistics none false).perAttr "a" = some pa
        ∧ pa.slack = 0
        ∧ pa.slack < (evaluateDecisionFeasibility bottleneckState
            bottleneckState.statistics none false).minSlack := by
  have hseats : remainingSeats bottleneckState false = 10 := by
    norm_num [remainingSeats, bottleneckState, VENUE_CAPACITY]
  have hdef : computeDeficits bottleneckState = [("a", 0), ("b", 5)] := by
    norm_num [computeDeficits, bottleneckState, lookupD, lookupA]
  have hpa : feasPerAttrOf bottleneckState.statistics 10 ("a", 0)
      = { need := 0, expected := 0, sd := 0, slack := 0 } := by
    unfold feasPerAttrOf
    norm_num [bottleneckState, lookupD, lookupA, clamp01, Real.sqrt_zero]
  have hba : ("b" : String) ≠ "a" := by decide
  have hpb : feasPerAttrOf bottleneckState.statistics 10 ("b", 5)
      = { need := 5, expected := 10, sd := 0, slack := 5 } := by
    unfold feasPerAttrOf
    norm_num [bottleneckState, lookupD, lookupA, clamp01, Real.sqrt_zero,
      SAFETY_Z, hba]
  have hstepa : minSlackStep bottleneckState.statistics 10 none ("a", 0)
      = none := by
    simp [minSlackStep]
  have hstepb : minSlackStep bottleneckState.statistics 10 none ("b", 5)
      = some ("b", (feasPerAttrOf bottleneckState.statistics 10 ("b", 5)).slack) := by
    simp [minSlackStep]
  have hfold : minSlackFold bottleneckState.statistics 10 [("a", 0), ("b", 5)]
      = some ("b", 5) := by
    unfold minSlackFold
    rw [List.foldl_cons, hstepa, List.foldl_cons, hstepb, List.foldl_nil, hpb]
  constructor
  · show ((evaluateDecisionFeasibility bottleneckState
        bottleneckState.statistics none false).minSlackAttr) = some "b"
    unfold evaluateDecisionFeasibility
    simp only [hseats, hdef, hfold]
    rfl
  constructor
  · unfold evaluateDecisionFeasibility
    simp only [hseats, hdef, hfold]
    rfl
  · refine ⟨{ need := 0, expected := 0, sd := 0, slack := 0 }, ?_, rfl, ?_⟩
    · unfold evaluateDecisionFeasibility
      simp only [hseats, hdef, List.map_cons, List.map_nil, hpa]
      simp [lookupA]
    · unfold evaluateDecisionFeasibility
      simp only [hseats, hdef, hfold]
      norm_num

/-- C8 amended: the reported bottleneck (minSlackAttr, minSlack) is the
minimum-slack constraint among those with STRICTLY POSITIVE deficit, ties
broken by iteration order (the first attaining entry wins; every earlier
positive-need entry has strictly larger slack); when no constraint has a
positive deficit the result is (null, 0).  The counterexample shows the
restriction to positive deficits is necessary. -/
theorem c8_amended_bottleneck_min_over_positive_need (state : CurrentState)
    (stats : AttributeStatistics) (person : Option Person) (accept : Bool) :
    (((evaluateDecisionFeasibility state stats person accept).perAttr.filter
          (fun pr => decide (0 < pr.2.need)) = [])
      → (evaluateDecisionFeasibility state stats person accept).minSlackAttr = none
        ∧ (evaluateDecisionFeasibility state stats person accept).minSlack = 0)
    ∧ (∀ pr ∈ (evaluateDecisionFeasibility state stats person accept).perAttr.filter
          (fun pr => decide (0 < pr.2.need)),
        (evaluateDecisionFeasibility state stats person accept).minSlack
          ≤ pr.2.slack)
    ∧ (((evaluateDecisionFeasibility state stats person accept).perAttr.filter
          (fun pr => decide (0 < pr.2.need)) ≠ [])
      → ∃ l1 pr l2,
          (evaluateDecisionFeasibility state stats person accept).perAttr.filter
            (fun pr => decide (0 < pr.2.need)) = l1 ++ pr :: l2
          ∧ (evaluateDecisionFeasibility state stats person accept).minSlackAttr
              = some pr.1
          ∧ (evaluateDecisionFeasibility state stats person accept).minSlack
              = pr.2.slack
          ∧ ∀ q ∈ l1, pr.2.slack < q.2.slack) := by
  cases person with
  | none =>
    cases accept with
    | false =>
      exact minSlack_characterization stats (remainingSeats state false)
        (computeDeficits state)
    | true =>
      exact minSlack_characterization stats (remainingSeats state true)
        (computeDeficits state)
  | some p =>
    cases accept with
    | false =>
      exact minSlack_characterization stats (remainingSeats state false)
        (computeDeficits state)
    | true =>
      exact minSlack_characterization stats (remainingSeats state true)
        (applyPersonToDeficits (computeDeficits state) p.attributes)

/-- Witness for C8's amended theorem: on sampleState the single constraint
has positive need, and the reported minSlack bounds its slack. -/
theorem c8_amended_bottleneck_witness :
    ("a", feasPerAttrOf sampleState.statistics (remainingSeats sampleState false)
        ("a", 1))
        ∈ (evaluateDecisionFeasibility sampleState sampleState.statistics
            none false).perAttr.filter (fun pr => decide (0 < pr.2.need))
    ∧ (evaluateDecisionFeasibility sampleState sampleState.statistics
        none false).minSlack
        ≤ (feasPerAttrOf sampleState.statistics (remainingSeats sampleState false)
            ("a", 1)).slack := by
  have hmem : ("a", feasPerAttrOf sampleState.statistics
      (remainingSeats sampleState false) ("a", 1))
      ∈ (evaluateDecisionFeasibility sampleState sampleState.statistics
          none false).perAttr.filter (fun pr => decide (0 < pr.2.need)) := by
    have hdef2 : computeDeficits sampleState = [("a", 1)] := by
      norm_num [computeDeficits, sampleState, lookupD, lookupA]
    unfold evaluateDecisionFeasibility
    simp only [hdef2, List.map_cons, List.map_nil]
    rw [List.filter_cons_of_pos (by rfl)]
    exact List.mem_cons_self _ _
  exact ⟨hmem, (c8_amended_bottleneck_min_over_positive_need sampleState
    sampleState.statistics none false).2.1 _ hmem⟩

end
